import Mathlib

/- Verification of the policy persistence and content-lifecycle layer of the
vendetta repository (src/app.py, single-file Streamlit application). The SQLite
tables are embedded as lists of row structures in insertion (rowid) order with
explicit AUTOINCREMENT counters; every repository function takes the clock value
datetime.now().isoformat() as an explicit argument; json.dumps and json.loads are
modelled by an executable printer and parser over a JSON value type, and TEXT
comparison uses the bytewise order of the SQLite BINARY collation. Fallible
operations return Option, with none standing for an uncaught Python exception. -/

/-- JSON values as stored in the text columns of the application database
(src/app.py persists structured payloads with json.dumps and reads them back with
json.loads). Numbers are modelled as integers: the floating-point part of JSON is
outside this embedding. -/
inductive Json where
  | null : Json
  | bool (b : Bool) : Json
  | num (n : Int) : Json
  | str (s : String) : Json
  | arr (elems : List Json) : Json
  | obj (fields : List (String × Json)) : Json

/-- Opening curly brace character. -/
def lcurly : Char := Char.ofNat 123

/-- Closing curly brace character. -/
def rcurly : Char := Char.ofNat 125

/-- Decimal digit character for a value below ten. -/
def digitChar (n : Nat) : Char :=
  match n with
  | 0 => '0' | 1 => '1' | 2 => '2' | 3 => '3' | 4 => '4'
  | 5 => '5' | 6 => '6' | 7 => '7' | 8 => '8' | _ => '9'

/-- Decimal digits of a natural number, least significant first; the first argument
is fuel, kept structural so that the definition evaluates in the kernel. -/
def natDigitsRev : Nat → Nat → List Char
  | 0, _ => []
  | _ + 1, 0 => []
  | f + 1, n + 1 => digitChar ((n + 1) % 10) :: natDigitsRev f ((n + 1) / 10)

/-- Decimal text of a natural number. -/
def printNat (n : Nat) : List Char :=
  if n = 0 then ['0'] else (natDigitsRev (n + 1) n).reverse

/-- Decimal text of an integer, with a leading minus sign when negative, matching
the serialization of Python ints by the json module. -/
def printInt (i : Int) : List Char :=
  if i < 0 then '-' :: printNat i.natAbs else printNat i.toNat

/-- Lowercase hexadecimal digit character for a value below sixteen. -/
def hexDigitChar (n : Nat) : Char :=
  match n with
  | 0 => '0' | 1 => '1' | 2 => '2' | 3 => '3' | 4 => '4'
  | 5 => '5' | 6 => '6' | 7 => '7' | 8 => '8' | 9 => '9'
  | 10 => 'a' | 11 => 'b' | 12 => 'c' | 13 => 'd' | 14 => 'e' | _ => 'f'

/-- String escaping of one character as json.dumps with ensure_ascii=False performs
it: quote, backslash and the named control characters get two-character escapes,
the remaining control characters a hexadecimal escape, and every other character
(including non-ASCII) is emitted as itself. -/
def escChar (c : Char) : List Char :=
  if c = '"' then ['\\', '"']
  else if c = '\\' then ['\\', '\\']
  else if c = '\n' then ['\\', 'n']
  else if c = '\t' then ['\\', 't']
  else if c = '\r' then ['\\', 'r']
  else if c = Char.ofNat 8 then ['\\', 'b']
  else if c = Char.ofNat 12 then ['\\', 'f']
  else if c.toNat < 32 then ['\\', 'u', '0', '0', hexDigitChar (c.toNat / 16), hexDigitChar (c.toNat % 16)]
  else [c]

/-- String escaping applied characterwise. -/
def escString (cs : List Char) : List Char :=
  match cs with
  | [] => []
  | c :: r => escChar c ++ escString r

mutual

/-- Serialization of a JSON value to text. This models Python json.dumps with
ensure_ascii=False as called in save_policy_content and save_generated_media
(src/app.py lines 215-244); it uses compact item separators, which affects only
the serialized bytes, never the value read back. -/
def printJson : Json → List Char
  | .null => "null".data
  | .bool true => "true".data
  | .bool false => "false".data
  | .num i => printInt i
  | .str s => '"' :: escString s.data ++ ['"']
  | .arr vs => '[' :: printElems vs ++ [']']
  | .obj fs => lcurly :: printFields fs ++ [rcurly]

def printElems : List Json → List Char
  | [] => []
  | [v] => printJson v
  | v :: w :: ws => printJson v ++ ',' :: printElems (w :: ws)

def printFields : List (String × Json) → List Char
  | [] => []
  | [(k, v)] => '"' :: escString k.data ++ '"' :: ':' :: printJson v
  | (k, v) :: g :: gs => '"' :: escString k.data ++ '"' :: ':' :: printJson v ++ ',' :: printFields (g :: gs)

end

/-- Serialization entry point, modelling json.dumps. -/
def dumps (v : Json) : String := ⟨printJson v⟩

/-- Lexicographic byte order on character lists: the order SQLite applies to TEXT
columns under the default BINARY collation, which the date filters and the
ORDER BY created_at DESC clauses of src/app.py rely on. -/
def charListLe : List Char → List Char → Bool
  | [], _ => true
  | _ :: _, [] => false
  | a :: as, b :: bs =>
    if a.toNat < b.toNat then true
    else if b.toNat < a.toNat then false
    else charListLe as bs

/-- Bytewise order on strings (SQLite BINARY collation). -/
def strLe (a b : String) : Bool := charListLe a.data b.data

/-- Strict bytewise order on strings. -/
def strLt (a b : String) : Bool := !(strLe b a)

/-- JSON whitespace as accepted between tokens by json.loads. -/
def isWsChar (c : Char) : Bool := c == ' ' || c == '\n' || c == '\t' || c == '\r'

/-- Drop leading whitespace. -/
def skipWs : List Char → List Char
  | [] => []
  | c :: r => if isWsChar c then skipWs r else c :: r

/-- Value of one hexadecimal digit character. -/
def parseHexDigit (c : Char) : Option Nat :=
  if c.isDigit then some (c.toNat - 48)
  else if 'a' ≤ c ∧ c ≤ 'f' then some (c.toNat - 87)
  else if 'A' ≤ c ∧ c ≤ 'F' then some (c.toNat - 55)
  else none

/-- Decode one escape sequence after a backslash inside a JSON string: the named
escapes and the four-hex-digit unicode escape. -/
def decodeEsc : List Char → Option (Char × List Char)
  | 'u' :: h1 :: h2 :: h3 :: h4 :: r2 =>
    match parseHexDigit h1, parseHexDigit h2, parseHexDigit h3, parseHexDigit h4 with
    | some a, some b, some c3, some d =>
      some (Char.ofNat (((a * 16 + b) * 16 + c3) * 16 + d), r2)
    | _, _, _, _ => none
  | e :: r2 =>
    match
      (if e = '"' then some '"'
       else if e = '\\' then some '\\'
       else if e = '/' then some '/'
       else if e = 'n' then some '\n'
       else if e = 't' then some '\t'
       else if e = 'r' then some '\r'
       else if e = 'b' then some (Char.ofNat 8)
       else if e = 'f' then some (Char.ofNat 12)
       else none) with
    | some d => some (d, r2)
    | none => none
  | [] => none

/-- Parse the body of a JSON string after the opening quote, up to and including
the closing quote; raw control characters are rejected as json.loads does in its
default strict mode. The first argument is fuel bounding the number of decoded
characters, kept structural so the parser evaluates in the kernel. -/
def parseStringBody : Nat → List Char → Option (List Char × List Char)
  | 0, _ => none
  | _ + 1, [] => none
  | fuel + 1, c :: r =>
    if c = '"' then some ([], r)
    else if c = '\\' then
      match decodeEsc r with
      | some (d, r2) => (parseStringBody fuel r2).map (fun p => (d :: p.1, p.2))
      | none => none
    else if c.toNat < 32 then none
    else (parseStringBody fuel r).map (fun p => (c :: p.1, p.2))

/-- Split off the leading run of decimal digit characters. -/
def takeDigits : List Char → (List Char × List Char)
  | [] => ([], [])
  | c :: r =>
    if c.isDigit then
      let p := takeDigits r
      (c :: p.1, p.2)
    else ([], c :: r)

/-- Value of a run of decimal digit characters, most significant first. -/
def digitsVal (acc : Nat) : List Char → Nat
  | [] => acc
  | c :: r => digitsVal (acc * 10 + (c.toNat - 48)) r

/-- Parse a nonempty run of decimal digits. A run of two or more digits starting
with 0 is rejected: the JSON grammar forbids leading zeros, and json.loads fails
on any document containing such a numeral. -/
def parseNum (s : List Char) : Option (Nat × List Char) :=
  match takeDigits s with
  | ([], _) => none
  | (d :: ds, r) =>
    if d = '0' ∧ ds ≠ [] then none
    else some (digitsVal 0 (d :: ds), r)

mutual

/-- Recursive-descent JSON parser, modelling Python json.loads on the integer
fragment of JSON as used by get_policy_contents and get_generated_media
(src/app.py lines 260-289). The fuel argument bounds bracket nesting and makes
the mutual recursion structural. -/
def parseVal : Nat → List Char → Option (Json × List Char)
  | 0, _ => none
  | fuel + 1, s =>
    match skipWs s with
    | [] => none
    | c :: r =>
      if c = 'n' then
        match r with
        | 'u' :: 'l' :: 'l' :: r2 => some (Json.null, r2)
        | _ => none
      else if c = 't' then
        match r with
        | 'r' :: 'u' :: 'e' :: r2 => some (Json.bool true, r2)
        | _ => none
      else if c = 'f' then
        match r with
        | 'a' :: 'l' :: 's' :: 'e' :: r2 => some (Json.bool false, r2)
        | _ => none
      else if c = '"' then
        (parseStringBody (r.length + 1) r).map (fun p => (Json.str ⟨p.1⟩, p.2))
      else if c = '-' then
        (parseNum r).map (fun p => (Json.num (-(p.1 : Int)), p.2))
      else if c = '[' then
        let r1 := skipWs r
        if r1.head? = some ']' then some (Json.arr [], r1.tail)
        else (parseElems fuel r1).map (fun p => (Json.arr p.1, p.2))
      else if c = lcurly then
        let r1 := skipWs r
        if r1.head? = some rcurly then some (Json.obj [], r1.tail)
        else (parseFields fuel r1).map (fun p => (Json.obj p.1, p.2))
      else if c.isDigit then
        (parseNum (c :: r)).map (fun p => (Json.num (p.1 : Int), p.2))
      else none

def parseElems : Nat → List Char → Option (List Json × List Char)
  | 0, _ => none
  | fuel + 1, s =>
    match parseVal fuel s with
    | none => none
    | some (v, r) =>
      match skipWs r with
      | c :: r2 =>
        if c = ',' then (parseElems fuel r2).map (fun p => (v :: p.1, p.2))
        else if c = ']' then some ([v], r2)
        else none
      | [] => none

def parseFields : Nat → List Char → Option (List (String × Json) × List Char)
  | 0, _ => none
  | fuel + 1, s =>
    match skipWs s with
    | c :: r =>
      if c = '"' then
        match parseStringBody (r.length + 1) r with
        | some (k, r1) =>
          (match skipWs r1 with
           | c2 :: r2 =>
             if c2 = ':' then
               match parseVal fuel r2 with
               | some (v, r3) =>
                 (match skipWs r3 with
                  | c3 :: r4 =>
                    if c3 = ',' then (parseFields fuel r4).map (fun p => ((⟨k⟩, v) :: p.1, p.2))
                    else if c3 = rcurly then some ([(⟨k⟩, v)], r4)
                    else none
                  | [] => none)
               | none => none
             else none
           | [] => none)
        | none => none
      else none
    | [] => none

end

/-- Deserialization entry point, modelling json.loads: one JSON value, possibly
surrounded by whitespace, and nothing else; none models the ValueError raised by
json.loads on malformed input. -/
def loads (s : String) : Option Json :=
  match parseVal (s.data.length + 1) s.data with
  | some (v, rest) => if (skipWs rest).isEmpty then some v else none
  | none => none

/-- Does the text start with a decimal digit. -/
def headDigit : List Char → Bool
  | [] => false
  | c :: _ => c.isDigit

/-- Value of a run of decimal digit characters, least significant first. -/
def lval : List Char → Nat
  | [] => 0
  | c :: r => (c.toNat - 48) + 10 * lval r

mutual

/-- Node count of a JSON value, used as a fuel bound. -/
def sizeJ : Json → Nat
  | .null => 1
  | .bool _ => 1
  | .num _ => 1
  | .str _ => 1
  | .arr vs => sizeL vs + 1
  | .obj fs => sizeF fs + 1

def sizeL : List Json → Nat
  | [] => 0
  | v :: vs => sizeJ v + sizeL vs + 1

def sizeF : List (String × Json) → Nat
  | [] => 0
  | (_, v) :: fs => sizeJ v + sizeF fs + 1

end

/-- One row of the policies table (src/app.py init_database, lines 144-154):
id INTEGER PRIMARY KEY AUTOINCREMENT, the four text attributes, status TEXT
DEFAULT draft, and the two ISO-8601 timestamp texts. -/
structure PolicyRow where
  id : Nat
  title : String
  category : String
  target_audience : String
  description : String
  status : String
  created_at : String
  updated_at : String
deriving DecidableEq

/-- One row of the policy_contents table (src/app.py lines 156-166): content_data
holds JSON-encoded text and metadata is a nullable JSON-encoded text column. -/
structure ContentRow where
  id : Nat
  policy_id : Nat
  content_type : String
  content_data : String
  metadata : Option String
  created_at : String
deriving DecidableEq

/-- One row of the generated_media table (src/app.py lines 181-193): media_url and
media_data are nullable, media bytes are modelled as a list of byte values, and
generation_params is a nullable JSON-encoded text column. -/
structure MediaRow where
  id : Nat
  policy_id : Nat
  media_type : String
  media_url : Option String
  media_data : Option (List Nat)
  prompt : Option String
  generation_params : Option String
  created_at : String
deriving DecidableEq

/-- The persistent store: the three tables exercised by the repository operations,
in rowid (insertion) order, together with one AUTOINCREMENT sequence counter per
table. The policy_performance table is declared in the schema but touched by no
operation, so it is omitted. -/
structure DB where
  policies : List PolicyRow
  policy_contents : List ContentRow
  generated_media : List MediaRow
  policySeq : Nat
  contentSeq : Nat
  mediaSeq : Nat
deriving DecidableEq

/-- The store just after init_database on a fresh file. -/
def emptyDB : DB := ⟨[], [], [], 0, 0, 0⟩

/-- create_policy (src/app.py lines 197-205). The database assigns the next
AUTOINCREMENT id and the function returns cursor.lastrowid; datetime.now()
.isoformat() is modelled by the explicit now argument, stamped into both
created_at and updated_at; status is the draft default. -/
def create_policy (db : DB) (now title category target_audience description : String) :
    Nat × DB :=
  let id := db.policySeq + 1
  let row : PolicyRow := {
    id := id, title := title, category := category, target_audience := target_audience,
    description := description, status := "draft", created_at := now, updated_at := now }
  (id, { db with policies := db.policies ++ [row], policySeq := id })

/-- update_policy_status (src/app.py lines 207-213): UPDATE policies SET
status = ?, updated_at = ? WHERE id = ?. Rows with another id are untouched and
a missing id updates nothing. -/
def update_policy_status (db : DB) (now : String) (policy_id : Nat) (status : String) : DB :=
  { db with policies := db.policies.map (fun p =>
      if p.id = policy_id then { p with status := status, updated_at := now } else p) }

/-- Python truthiness of a JSON value, as the expression (metadata or ...) uses it:
None, False, zero, empty string, empty list and empty dict are falsy. -/
def jsonTruthy : Json → Bool
  | .null => false
  | .bool b => b
  | .num n => n != 0
  | .str s => s != ""
  | .arr vs => !vs.isEmpty
  | .obj fs => !fs.isEmpty

/-- save_policy_content (src/app.py lines 215-228): inserts an append-only row with
content_data = json.dumps(content_data) and metadata = json.dumps(metadata or,
when that is falsy, the empty dict); the metadata column is therefore never NULL
for rows written here. -/
def save_policy_content (db : DB) (now : String) (policy_id : Nat) (content_type : String)
    (content_data : Json) (metadata : Option Json) : DB :=
  let md := match metadata with
    | some m => if jsonTruthy m then m else Json.obj []
    | none => Json.obj []
  let id := db.contentSeq + 1
  let row : ContentRow := {
    id := id, policy_id := policy_id, content_type := content_type,
    content_data := dumps content_data, metadata := some (dumps md), created_at := now }
  { db with policy_contents := db.policy_contents ++ [row], contentSeq := id }

/-- save_generated_media (src/app.py lines 230-244): inserts an append-only row;
the INSERT names no media_url column, so that column is NULL, and
generation_params = json.dumps(params). -/
def save_generated_media (db : DB) (now : String) (policy_id : Nat) (media_type : String)
    (media_data : List Nat) (prompt : String) (params : Json) : DB :=
  let id := db.mediaSeq + 1
  let row : MediaRow := {
    id := id, policy_id := policy_id, media_type := media_type, media_url := none,
    media_data := some media_data, prompt := some prompt,
    generation_params := some (dumps params), created_at := now }
  { db with generated_media := db.generated_media ++ [row], mediaSeq := id }

/-- get_policy (src/app.py lines 246-251): SELECT * FROM policies WHERE id = ?
with fetchone, returning None when the id is absent. -/
def get_policy (db : DB) (policy_id : Nat) : Option PolicyRow :=
  db.policies.find? (fun p => p.id == policy_id)

/-- ORDER BY created_at DESC on policies rows. -/
def policyDesc (a b : PolicyRow) : Prop := strLe b.created_at a.created_at = true

instance : DecidableRel policyDesc :=
  fun a b => inferInstanceAs (Decidable (strLe b.created_at a.created_at = true))

/-- get_all_policies (src/app.py lines 253-258): SELECT * FROM policies ORDER BY
created_at DESC LIMIT ?. A negative LIMIT means no limit in SQLite. -/
def get_all_policies (db : DB) (limit : Int) : List PolicyRow :=
  let sorted := List.insertionSort policyDesc db.policies
  if limit < 0 then sorted else sorted.take limit.toNat

/-- Decode rows one after the other, as the Python result loops do; a failing row
raises, so the whole listing yields none. -/
def mapRows {α β : Type} (f : α → Option β) : List α → Option (List β)
  | [] => some []
  | x :: xs =>
    match f x with
    | none => none
    | some y => (mapRows f xs).map (fun ys => y :: ys)

/-- A policy_contents row as returned by get_policy_contents, with content_data and
metadata replaced by their deserialized values. -/
structure ContentOut where
  id : Nat
  policy_id : Nat
  content_type : String
  content_data : Json
  metadata : Json
  created_at : String

/-- Row decoding inside get_policy_contents (src/app.py lines 265-269):
json.loads on content_data unconditionally, and on metadata only when that
column is truthy, the empty dict otherwise; none models the uncaught exception. -/
def decodeContentRow (r : ContentRow) : Option ContentOut :=
  match loads r.content_data with
  | none => none
  | some cd =>
    match (match r.metadata with
           | some s => if s = "" then some (Json.obj []) else loads s
           | none => some (Json.obj [])) with
    | none => none
    | some md => some {
        id := r.id, policy_id := r.policy_id, content_type := r.content_type,
        content_data := cd, metadata := md, created_at := r.created_at }

/-- ORDER BY created_at DESC on policy_contents rows. -/
def contentDesc (a b : ContentRow) : Prop := strLe b.created_at a.created_at = true

instance : DecidableRel contentDesc :=
  fun a b => inferInstanceAs (Decidable (strLe b.created_at a.created_at = true))

/-- get_policy_contents (src/app.py lines 260-271): the rows of the policy,
created_at descending, each deserialized; the function has no exception handler,
so a row that fails to deserialize aborts the whole listing. -/
def get_policy_contents (db : DB) (policy_id : Nat) : Option (List ContentOut) :=
  mapRows decodeContentRow
    (List.insertionSort contentDesc (db.policy_contents.filter (fun r => r.policy_id == policy_id)))

/-- A generated_media row as returned by get_generated_media, with
generation_params replaced by its deserialized value. -/
structure MediaOut where
  id : Nat
  policy_id : Nat
  media_type : String
  media_url : Option String
  media_data : Option (List Nat)
  prompt : Option String
  generation_params : Json
  created_at : String

/-- Row decoding inside get_generated_media (src/app.py lines 285-288): json.loads
on generation_params when truthy, the empty dict otherwise. -/
def decodeMediaRow (r : MediaRow) : Option MediaOut :=
  match (match r.generation_params with
         | some s => if s = "" then some (Json.obj []) else loads s
         | none => some (Json.obj [])) with
  | none => none
  | some gp => some {
      id := r.id, policy_id := r.policy_id, media_type := r.media_type,
      media_url := r.media_url, media_data := r.media_data, prompt := r.prompt,
      generation_params := gp, created_at := r.created_at }

/-- ORDER BY created_at DESC on generated_media rows. -/
def mediaDesc (a b : MediaRow) : Prop := strLe b.created_at a.created_at = true

instance : DecidableRel mediaDesc :=
  fun a b => inferInstanceAs (Decidable (strLe b.created_at a.created_at = true))

/-- get_generated_media (src/app.py lines 273-289): the guard is the Python
truthiness test "if media_type:", so both None and the empty string select the
unfiltered branch; otherwise rows are filtered to the given media_type. -/
def get_generated_media (db : DB) (policy_id : Nat) (media_type : Option String) :
    Option (List MediaOut) :=
  let rows := match media_type with
    | some t =>
      if t = "" then
        db.generated_media.filter (fun r => r.policy_id == policy_id)
      else
        db.generated_media.filter (fun r => r.policy_id == policy_id && r.media_type == t)
    | none => db.generated_media.filter (fun r => r.policy_id == policy_id)
  mapRows decodeMediaRow (List.insertionSort mediaDesc rows)

/-- Models the SQLite date() function on the ISO-8601 texts this application
stores: the first ten characters as YYYY-MM-DD, optionally followed by a time
part introduced by T or a space; anything else yields NULL. -/
def sqlDate (s : String) : Option String :=
  match s.data with
  | c0 :: c1 :: c2 :: c3 :: c4 :: c5 :: c6 :: c7 :: c8 :: c9 :: rest =>
    if c0.isDigit && c1.isDigit && c2.isDigit && c3.isDigit && (c4 == '-') &&
       c5.isDigit && c6.isDigit && (c7 == '-') && c8.isDigit && c9.isDigit &&
       (match rest with
        | [] => true
        | c :: _ => c == 'T' || c == ' ')
    then some ⟨[c0, c1, c2, c3, c4, c5, c6, c7, c8, c9]⟩
    else none
  | _ => none

/-- get_policies_by_date (src/app.py lines 291-298): WHERE date(created_at) =
date(?), ORDER BY created_at DESC; a NULL on either side of the comparison
excludes the row, following SQL three-valued logic. -/
def get_policies_by_date (db : DB) (date_str : String) : List PolicyRow :=
  List.insertionSort policyDesc (db.policies.filter (fun p =>
    match sqlDate p.created_at, sqlDate date_str with
    | some x, some v => x == v
    | _, _ => false))

/-- get_policies_by_date_range (src/app.py lines 300-307): WHERE date(created_at)
BETWEEN date(?) AND date(?), which SQLite defines as the conjunction of the two
bound comparisons; NULL anywhere excludes the row. -/
def get_policies_by_date_range (db : DB) (start_date end_date : String) : List PolicyRow :=
  List.insertionSort policyDesc (db.policies.filter (fun p =>
    match sqlDate p.created_at, sqlDate start_date, sqlDate end_date with
    | some x, some lo, some hi => strLe lo x && strLe x hi
    | _, _, _ => false))

/-- Invariant of the policies table: every stored id is at most the AUTOINCREMENT
counter. It holds for the empty store and is preserved by every operation. -/
def DBWf (db : DB) : Prop := ∀ p ∈ db.policies, p.id ≤ db.policySeq

/-- Wellformedness of the policy_contents table: every stored row deserializes.
Every row written by save_policy_content satisfies this. -/
def CWf (db : DB) : Prop := ∀ r ∈ db.policy_contents, (decodeContentRow r).isSome = true

/-- Wellformedness of the generated_media table: every stored row deserializes.
Every row written by save_generated_media satisfies this. -/
def MWf (db : DB) : Prop := ∀ r ∈ db.generated_media, (decodeMediaRow r).isSome = true

/-- Descending created_at order on decoded media rows. -/
def mediaOutDesc (a b : MediaOut) : Prop := strLe b.created_at a.created_at = true

/-- A store holding one media row of type image for policy 1. -/
def mediaCexDB : DB :=
  save_generated_media emptyDB "2024-01-01T10:00:00" 1 "image" [7] "p" (Json.obj [])

/-- A store holding one corrupt content row (content_data is not JSON) and one
wellformed content row for the same policy. -/
def corruptDB : DB :=
  { policies := [], policy_contents := [
      ⟨1, 1, "analysis", "oops", some "\x7b\x7d", "2024-01-01T10:00:00"⟩,
      ⟨2, 1, "analysis", "\x7b\x7d", some "\x7b\x7d", "2024-01-02T10:00:00"⟩],
    generated_media := [], policySeq := 0, contentSeq := 2, mediaSeq := 0 }

/-- A store holding one content row whose content_data is valid JSON but whose
metadata text is not. -/
def corruptMetaDB : DB :=
  { policies := [], policy_contents := [
      ⟨1, 1, "analysis", "\x7b\x7d", some "oops", "2024-01-01T10:00:00"⟩],
    generated_media := [], policySeq := 0, contentSeq := 1, mediaSeq := 0 }

theorem digitChar_isDigit (n : Nat) : (digitChar n).isDigit = true := by
  unfold digitChar; split <;> decide

theorem digitChar_toNat (n : Nat) (h : n < 10) : (digitChar n).toNat = 48 + n := by
  interval_cases n <;> rfl

theorem natDigitsRev_digits : ∀ f n c, c ∈ natDigitsRev f n → c.isDigit = true := by
  intro f
  induction f with
  | zero => intro n c hc; simp [natDigitsRev] at hc
  | succ f ih =>
    intro n c hc
    match n with
    | 0 => simp [natDigitsRev] at hc
    | m + 1 =>
      simp only [natDigitsRev, List.mem_cons] at hc
      rcases hc with h | h
      · subst h; exact digitChar_isDigit _
      · exact ih _ _ h

theorem printNat_digits (n : Nat) : ∀ c ∈ printNat n, c.isDigit = true := by
  intro c hc
  unfold printNat at hc
  split at hc
  · simp at hc; subst hc; decide
  · exact natDigitsRev_digits _ _ _ (List.mem_reverse.1 hc)

theorem printNat_ne_nil (n : Nat) : printNat n ≠ [] := by
  unfold printNat
  split
  · simp
  · next h =>
    cases n with
    | zero => exact absurd rfl h
    | succ m => simp [natDigitsRev]

theorem lval_natDigitsRev : ∀ f n, n ≤ f → lval (natDigitsRev f n) = n := by
  intro f
  induction f with
  | zero => intro n h; interval_cases n; simp [natDigitsRev, lval]
  | succ f ih =>
    intro n h
    match n with
    | 0 => simp [natDigitsRev, lval]
    | m + 1 =>
      have hdiv : (m + 1) / 10 ≤ f := by
        have := Nat.div_lt_self (Nat.succ_pos m) (by omega : 1 < 10)
        omega
      simp only [natDigitsRev, lval, ih _ hdiv, digitChar_toNat _ (Nat.mod_lt _ (by omega))]
      omega

theorem digitsVal_concat (acc : Nat) (xs : List Char) (c : Char) :
    digitsVal acc (xs ++ [c]) = 10 * digitsVal acc xs + (c.toNat - 48) := by
  induction xs generalizing acc with
  | nil =>
    rw [List.nil_append]
    show acc * 10 + (c.toNat - 48) = 10 * acc + (c.toNat - 48)
    omega
  | cons x xs ih =>
    rw [List.cons_append]
    show digitsVal (acc * 10 + (x.toNat - 48)) (xs ++ [c]) =
      10 * digitsVal (acc * 10 + (x.toNat - 48)) xs + (c.toNat - 48)
    rw [ih]

theorem digitsVal_reverse (acc : Nat) (ds : List Char) :
    digitsVal acc ds.reverse = acc * 10 ^ ds.length + lval ds := by
  induction ds generalizing acc with
  | nil =>
    rw [List.reverse_nil]
    show acc = acc * 10 ^ 0 + 0
    simp
  | cons d ds ih =>
    simp only [List.reverse_cons, digitsVal_concat, ih, lval, List.length_cons]
    ring

theorem digitsVal_printNat (n : Nat) : digitsVal 0 (printNat n) = n := by
  unfold printNat
  split
  · next h => subst h; decide
  · rw [digitsVal_reverse, lval_natDigitsRev _ _ (by omega)]; simp

theorem takeDigits_append (ds rest : List Char) (h1 : ∀ c ∈ ds, c.isDigit = true)
    (h2 : headDigit rest = false) : takeDigits (ds ++ rest) = (ds, rest) := by
  induction ds with
  | nil =>
    simp only [List.nil_append]
    match rest, h2 with
    | [], _ => rfl
    | c :: r, h2 => simp [takeDigits, headDigit] at h2 ⊢; simp [h2]
  | cons d ds ih =>
    have hd : d.isDigit = true := h1 d (List.mem_cons_self _ _)
    have ih2 := ih (fun c hc => h1 c (List.mem_cons_of_mem _ hc))
    simp only [List.cons_append, takeDigits, hd, if_true]
    rw [show takeDigits (ds.append rest) = (ds, rest) from ih2]

theorem natDigitsRev_msd : ∀ f n, 1 ≤ n → n ≤ f →
    ∃ ds d, natDigitsRev f n = ds ++ [d] ∧ ¬ d = '0' := by
  intro f
  induction f with
  | zero => intro n h1 h2; omega
  | succ f ih =>
    intro n h1 h2
    match n, h1 with
    | m + 1, _ =>
      by_cases hq : (m + 1) / 10 = 0
      · refine ⟨[], digitChar ((m + 1) % 10), ?_, ?_⟩
        · show digitChar ((m + 1) % 10) :: natDigitsRev f ((m + 1) / 10) =
            [] ++ [digitChar ((m + 1) % 10)]
          rw [hq]
          cases f <;> rfl
        · have hlt : m + 1 < 10 := by omega
          have hm : (m + 1) % 10 = m + 1 := Nat.mod_eq_of_lt hlt
          intro hd
          have hto := congrArg Char.toNat hd
          rw [digitChar_toNat _ (by omega)] at hto
          have h48 : Char.toNat '0' = 48 := rfl
          rw [h48] at hto
          omega
      · have hle : (m + 1) / 10 ≤ f := by
          have := Nat.div_lt_self (Nat.succ_pos m) (by omega : 1 < 10)
          omega
        obtain ⟨ds, d, hnd, hd0⟩ := ih ((m + 1) / 10) (by omega) hle
        refine ⟨digitChar ((m + 1) % 10) :: ds, d, ?_, hd0⟩
        show digitChar ((m + 1) % 10) :: natDigitsRev f ((m + 1) / 10) =
          (digitChar ((m + 1) % 10) :: ds) ++ [d]
        rw [hnd]
        rfl

theorem printNat_head_shape (n : Nat) :
    ∃ d ds, printNat n = d :: ds ∧ (d = '0' → ds = []) := by
  by_cases h0 : n = 0
  · subst h0
    exact ⟨'0', [], rfl, fun _ => rfl⟩
  · obtain ⟨ds, d, hnd, hd0⟩ := natDigitsRev_msd (n + 1) n (by omega) (by omega)
    refine ⟨d, ds.reverse, ?_, fun hd => absurd hd hd0⟩
    unfold printNat
    rw [if_neg h0, hnd, List.reverse_append]
    rfl

theorem parseNum_printNat (n : Nat) (rest : List Char) (h : headDigit rest = false) :
    parseNum (printNat n ++ rest) = some (n, rest) := by
  unfold parseNum
  rw [takeDigits_append _ _ (printNat_digits n) h]
  obtain ⟨d, ds, hp, hz⟩ := printNat_head_shape n
  rw [hp]
  show (if d = '0' ∧ ds ≠ [] then none else some (digitsVal 0 (d :: ds), rest)) =
    some (n, rest)
  rw [if_neg (fun hand => hand.2 (hz hand.1))]
  rw [← hp, digitsVal_printNat]

theorem parseHexDigit_hexDigitChar (m : Nat) (h : m < 16) :
    parseHexDigit (hexDigitChar m) = some m := by
  interval_cases m <;> decide

theorem skipWs_cons (c : Char) (r : List Char) (h : isWsChar c = false) :
    skipWs (c :: r) = c :: r := by
  show (if isWsChar c then skipWs r else c :: r) = c :: r
  rw [h]
  simp

theorem escString_length (cs : List Char) : cs.length ≤ (escString cs).length := by
  induction cs with
  | nil => simp [escString]
  | cons c cs ih =>
    have hc : 1 ≤ (escChar c).length := by
      unfold escChar
      split <;> try simp
      split <;> try simp
      split <;> try simp
      split <;> try simp
      split <;> try simp
      split <;> try simp
      split <;> try simp
      split <;> simp
    simp only [escString, List.length_append, List.length_cons]
    omega

theorem parseStringBody_escString : ∀ cs fuel rest, cs.length < fuel →
    parseStringBody fuel (escString cs ++ '"' :: rest) = some (cs, rest) := by
  intro cs
  induction cs with
  | nil =>
    intro fuel rest h
    match fuel, h with
    | f + 1, _ =>
      show parseStringBody (f + 1) ('"' :: rest) = some ([], rest)
      simp [parseStringBody]
  | cons c cs ih =>
    intro fuel rest h
    match fuel, h with
    | f + 1, hlt =>
      have hf : cs.length < f := by
        simp only [List.length_cons] at hlt
        omega
      show parseStringBody (f + 1) ((escChar c ++ escString cs) ++ '"' :: rest) = some (c :: cs, rest)
      rw [List.append_assoc]
      unfold escChar
      by_cases h1 : c = '"'
      · subst h1; rw [if_pos rfl]
        simp [parseStringBody, decodeEsc, ih f rest hf]
      · rw [if_neg h1]
        by_cases h2 : c = '\\'
        · subst h2; rw [if_pos rfl]
          simp [parseStringBody, decodeEsc, ih f rest hf]
        · rw [if_neg h2]
          by_cases h3 : c = '\n'
          · subst h3; rw [if_pos rfl]
            simp [parseStringBody, decodeEsc, ih f rest hf]
          · rw [if_neg h3]
            by_cases h4 : c = '\t'
            · subst h4; rw [if_pos rfl]
              simp [parseStringBody, decodeEsc, ih f rest hf]
            · rw [if_neg h4]
              by_cases h5 : c = '\r'
              · subst h5; rw [if_pos rfl]
                simp [parseStringBody, decodeEsc, ih f rest hf]
              · rw [if_neg h5]
                by_cases h6 : c = Char.ofNat 8
                · subst h6; rw [if_pos rfl]
                  simp [parseStringBody, decodeEsc, ih f rest hf]
                · rw [if_neg h6]
                  by_cases h7 : c = Char.ofNat 12
                  · subst h7; rw [if_pos rfl]
                    simp [parseStringBody, decodeEsc, ih f rest hf]
                  · rw [if_neg h7]
                    by_cases h8 : c.toNat < 32
                    · rw [if_pos h8]
                      have e0 : parseHexDigit '0' = some 0 := rfl
                      have e3 := parseHexDigit_hexDigitChar (c.toNat / 16) (by omega)
                      have e4 := parseHexDigit_hexDigitChar (c.toNat % 16) (Nat.mod_lt _ (by omega))
                      have harith : ∀ m : Nat, m < 32 → ((0 * 16 + 0) * 16 + m / 16) * 16 + m % 16 = m := by
                        intro m hm; omega
                      simp [parseStringBody, decodeEsc, e0, e3, e4, harith c.toNat h8,
                        Char.ofNat_toNat, ih f rest hf]
                      rw [show c.toNat / 16 * 16 + c.toNat % 16 = c.toNat from by omega]
                      exact Char.ofNat_toNat c
                    · rw [if_neg h8]
                      simp [parseStringBody, h1, h2, h8, ih f rest hf]

theorem sizeJ_pos (v : Json) : 1 ≤ sizeJ v := by
  cases v <;> simp [sizeJ]

theorem digit_not_ws (c : Char) (h : c.isDigit = true) : isWsChar c = false := by
  have h48 : 48 ≤ c.toNat := by
    simp [Char.isDigit, decide_eq_true_iff] at h
    exact h.1
  by_contra hw
  simp only [Bool.not_eq_false] at hw
  simp only [isWsChar, Bool.or_eq_true, beq_iff_eq] at hw
  rcases hw with ((h1 | h1) | h1) | h1 <;> subst h1 <;> simp at h48

theorem digit_ne_rbracket (c : Char) (h : c.isDigit = true) : ¬ c = ']' := by
  intro he; subst he; simp at h

theorem printJson_cons (v : Json) :
    ∃ c cs, printJson v = c :: cs ∧ isWsChar c = false ∧ ¬ c = ']' := by
  cases v with
  | null => exact ⟨'n', _, rfl, by decide, by decide⟩
  | bool b =>
    cases b
    · exact ⟨'f', _, rfl, by decide, by decide⟩
    · exact ⟨'t', _, rfl, by decide, by decide⟩
  | num i =>
    show ∃ c cs, printInt i = c :: cs ∧ _
    unfold printInt
    by_cases hi : i < 0
    · rw [if_pos hi]
      exact ⟨'-', _, rfl, by decide, by decide⟩
    · rw [if_neg hi]
      match hp : printNat i.toNat, printNat_ne_nil i.toNat with
      | d :: ds, _ =>
        have hd : d.isDigit = true := printNat_digits _ d (hp ▸ List.mem_cons_self _ _)
        exact ⟨d, ds, rfl, digit_not_ws d hd, digit_ne_rbracket d hd⟩
  | str s => exact ⟨'"', _, rfl, by decide, by decide⟩
  | arr vs => exact ⟨'[', _, rfl, by decide, by decide⟩
  | obj fs => exact ⟨lcurly, _, rfl, by decide, by decide⟩

theorem printElems_cons (v : Json) (vs : List Json) :
    ∃ t, printElems (v :: vs) = printJson v ++ t := by
  cases vs with
  | nil => exact ⟨[], by simp [printElems]⟩
  | cons w ws => exact ⟨',' :: printElems (w :: ws), by simp [printElems]⟩

mutual

theorem sizeJ_le_print (v : Json) : sizeJ v ≤ (printJson v).length := by
  cases v with
  | null => decide
  | bool b => cases b <;> decide
  | num i =>
    show 1 ≤ (printJson (.num i)).length
    simp only [printJson]
    unfold printInt
    split
    · simp
    · have := printNat_ne_nil i.toNat
      cases hp : printNat i.toNat with
      | nil => exact absurd hp this
      | cons d ds => simp
  | str s =>
    show 1 ≤ (printJson (.str s)).length
    simp [printJson]
  | arr vs =>
    have h := sizeL_le_print vs
    show sizeL vs + 1 ≤ (printJson (.arr vs)).length
    simp only [printJson, List.length_cons, List.length_append]
    simp at h ⊢
    omega
  | obj fs =>
    have h := sizeF_le_print fs
    show sizeF fs + 1 ≤ (printJson (.obj fs)).length
    simp only [printJson, List.length_cons, List.length_append]
    simp at h ⊢
    omega

theorem sizeL_le_print (vs : List Json) : sizeL vs ≤ (printElems vs).length + 1 := by
  match vs with
  | [] => simp [sizeL, printElems]
  | [v] =>
    have h := sizeJ_le_print v
    show sizeJ v + sizeL [] + 1 ≤ (printElems [v]).length + 1
    simp only [printElems, sizeL]
    omega
  | v :: w :: ws =>
    have h1 := sizeJ_le_print v
    have h2 := sizeL_le_print (w :: ws)
    show sizeJ v + sizeL (w :: ws) + 1 ≤ (printElems (v :: w :: ws)).length + 1
    simp only [printElems, List.length_append, List.length_cons]
    omega

theorem sizeF_le_print (fs : List (String × Json)) : sizeF fs ≤ (printFields fs).length + 1 := by
  match fs with
  | [] => simp [sizeF, printFields]
  | [(k, v)] =>
    have h := sizeJ_le_print v
    show sizeJ v + sizeF [] + 1 ≤ (printFields [(k, v)]).length + 1
    simp only [printFields, sizeF, List.length_append, List.length_cons]
    omega
  | (k, v) :: g :: gs =>
    have h1 := sizeJ_le_print v
    have h2 := sizeF_le_print (g :: gs)
    show sizeJ v + sizeF (g :: gs) + 1 ≤ (printFields ((k, v) :: g :: gs)).length + 1
    simp only [printFields, List.length_append, List.length_cons]
    omega

end

theorem parseVal_succ_digit (f : Nat) (c : Char) (r : List Char) (hd : c.isDigit = true) :
    parseVal (f + 1) (c :: r) =
      (parseNum (c :: r)).map (fun p => (Json.num (p.1 : Int), p.2)) := by
  have h1 : ¬ c = 'n' := fun he => by subst he; revert hd; decide
  have h2 : ¬ c = 't' := fun he => by subst he; revert hd; decide
  have h3 : ¬ c = 'f' := fun he => by subst he; revert hd; decide
  have h4 : ¬ c = '"' := fun he => by subst he; revert hd; decide
  have h5 : ¬ c = '-' := fun he => by subst he; revert hd; decide
  have h6 : ¬ c = '[' := fun he => by subst he; revert hd; decide
  have h7 : ¬ c = lcurly := fun he => by subst he; revert hd; decide
  rw [parseVal]
  rw [skipWs_cons c r (digit_not_ws c hd)]
  simp [h1, h2, h3, h4, h5, h6, h7, hd]

theorem parseVal_succ_dash (f : Nat) (r : List Char) :
    parseVal (f + 1) ('-' :: r) =
      (parseNum r).map (fun p => (Json.num (-(p.1 : Int)), p.2)) := by
  rw [parseVal, skipWs_cons '-' r (by decide)]
  simp

theorem parseVal_succ_quote (f : Nat) (r : List Char) :
    parseVal (f + 1) ('"' :: r) =
      (parseStringBody (r.length + 1) r).map (fun p => (Json.str ⟨p.1⟩, p.2)) := by
  rw [parseVal, skipWs_cons '"' r (by decide)]
  simp

theorem parseVal_succ_arr (f : Nat) (r : List Char) :
    parseVal (f + 1) ('[' :: r) =
      (if (skipWs r).head? = some ']' then some (Json.arr [], (skipWs r).tail)
       else (parseElems f (skipWs r)).map (fun p => (Json.arr p.1, p.2))) := by
  rw [parseVal, skipWs_cons '[' r (by decide)]
  simp

theorem parseVal_succ_lcurly (f : Nat) (r : List Char) :
    parseVal (f + 1) (lcurly :: r) =
      (if (skipWs r).head? = some rcurly then some (Json.obj [], (skipWs r).tail)
       else (parseFields f (skipWs r)).map (fun p => (Json.obj p.1, p.2))) := by
  rw [parseVal, skipWs_cons lcurly r (by decide)]
  simp [lcurly]

theorem printFields_head (k : String) (w : Json) (gs : List (String × Json)) :
    ∃ t, printFields ((k, w) :: gs) = '"' :: t := by
  cases gs with
  | nil => exact ⟨_, rfl⟩
  | cons g gs2 => exact ⟨_, rfl⟩

theorem parseVal_succ_null (f : Nat) (rest : List Char) :
    parseVal (f + 1) ('n' :: 'u' :: 'l' :: 'l' :: rest) = some (Json.null, rest) := by
  rw [parseVal, skipWs_cons 'n' _ (by decide)]
  rfl

theorem parseVal_succ_true (f : Nat) (rest : List Char) :
    parseVal (f + 1) ('t' :: 'r' :: 'u' :: 'e' :: rest) = some (Json.bool true, rest) := by
  rw [parseVal, skipWs_cons 't' _ (by decide)]
  rfl

theorem parseVal_succ_false (f : Nat) (rest : List Char) :
    parseVal (f + 1) ('f' :: 'a' :: 'l' :: 's' :: 'e' :: rest) = some (Json.bool false, rest) := by
  rw [parseVal, skipWs_cons 'f' _ (by decide)]
  rfl

theorem parse_print_aux : ∀ fuel,
    (∀ v rest, sizeJ v < fuel → headDigit rest = false →
      parseVal fuel (printJson v ++ rest) = some (v, rest)) ∧
    (∀ v vs rest, sizeL (v :: vs) < fuel →
      parseElems fuel (printElems (v :: vs) ++ ']' :: rest) = some (v :: vs, rest)) ∧
    (∀ k v fs rest, sizeF ((k, v) :: fs) < fuel →
      parseFields fuel (printFields ((k, v) :: fs) ++ rcurly :: rest) = some ((k, v) :: fs, rest)) := by
  intro fuel
  induction fuel with
  | zero =>
    refine ⟨?_, ?_, ?_⟩
    · intro v rest hs _; exact absurd hs (Nat.not_lt_zero _)
    · intro v vs rest hs; exact absurd hs (Nat.not_lt_zero _)
    · intro k v fs rest hs; exact absurd hs (Nat.not_lt_zero _)
  | succ f ih =>
    obtain ⟨ihA, ihB, ihC⟩ := ih
    refine ⟨?_, ?_, ?_⟩
    · -- parseVal round trip
      intro v rest hs hr
      cases v with
      | null =>
        show parseVal (f + 1) (['n', 'u', 'l', 'l'] ++ rest) = some (Json.null, rest)
        rw [show (['n', 'u', 'l', 'l'] : List Char) ++ rest = 'n' :: 'u' :: 'l' :: 'l' :: rest from rfl]
        exact parseVal_succ_null f rest
      | bool b =>
        cases b
        · show parseVal (f + 1) (['f', 'a', 'l', 's', 'e'] ++ rest) = some (Json.bool false, rest)
          rw [show (['f', 'a', 'l', 's', 'e'] : List Char) ++ rest =
            'f' :: 'a' :: 'l' :: 's' :: 'e' :: rest from rfl]
          exact parseVal_succ_false f rest
        · show parseVal (f + 1) (['t', 'r', 'u', 'e'] ++ rest) = some (Json.bool true, rest)
          rw [show (['t', 'r', 'u', 'e'] : List Char) ++ rest = 't' :: 'r' :: 'u' :: 'e' :: rest from rfl]
          exact parseVal_succ_true f rest
      | num i =>
        show parseVal (f + 1) (printInt i ++ rest) = some (Json.num i, rest)
        unfold printInt
        by_cases hi : i < 0
        · rw [if_pos hi, List.cons_append, parseVal_succ_dash]
          rw [parseNum_printNat i.natAbs rest hr]
          have hiv : -(i.natAbs : Int) = i := by omega
          show some (Json.num (-(i.natAbs : Int)), rest) = some (Json.num i, rest)
          rw [hiv]
        · rw [if_neg hi]
          match hp : printNat i.toNat, printNat_ne_nil i.toNat with
          | d :: ds, _ =>
            have hd : d.isDigit = true := printNat_digits _ d (hp ▸ List.mem_cons_self _ _)
            rw [List.cons_append, parseVal_succ_digit f d _ hd, ← List.cons_append, ← hp]
            rw [parseNum_printNat i.toNat rest hr]
            have hiv : ((i.toNat : Int)) = i := by omega
            show some (Json.num ((i.toNat : Int)), rest) = some (Json.num i, rest)
            rw [hiv]
      | str s =>
        show parseVal (f + 1) (('"' :: (escString s.data ++ ['"'])) ++ rest) = some (Json.str s, rest)
        rw [List.cons_append, List.append_assoc, List.singleton_append]
        rw [parseVal_succ_quote]
        rw [parseStringBody_escString s.data _ rest (by
          have h1 := escString_length s.data
          have h2 : (escString s.data ++ '"' :: rest).length =
              (escString s.data).length + (rest.length + 1) := by
            rw [List.length_append, List.length_cons]
          omega)]
        rfl
      | arr vs =>
        cases vs with
        | nil =>
          show parseVal (f + 1) (('[' :: (printElems [] ++ [']'])) ++ rest) = some (Json.arr [], rest)
          rw [show printElems [] = ([] : List Char) from rfl]
          rw [List.nil_append, List.cons_append, List.singleton_append]
          rw [parseVal_succ_arr]
          rw [skipWs_cons ']' rest (by decide)]
          simp
        | cons v1 vs1 =>
          have hsz : sizeL (v1 :: vs1) < f := by
            have h1 : sizeJ (Json.arr (v1 :: vs1)) = sizeL (v1 :: vs1) + 1 := rfl
            omega
          obtain ⟨t, ht⟩ := printElems_cons v1 vs1
          obtain ⟨c, cs, hc, hcw, hcb⟩ := printJson_cons v1
          have hform : printElems (v1 :: vs1) ++ ']' :: rest = c :: (cs ++ (t ++ ']' :: rest)) := by
            rw [ht, hc]; simp
          have hskip : skipWs (printElems (v1 :: vs1) ++ ']' :: rest) =
              printElems (v1 :: vs1) ++ ']' :: rest := by
            rw [hform]; exact skipWs_cons _ _ hcw
          have hhead : (printElems (v1 :: vs1) ++ ']' :: rest).head? = some c := by
            rw [hform]; rfl
          show parseVal (f + 1) (('[' :: (printElems (v1 :: vs1) ++ [']'])) ++ rest) =
            some (Json.arr (v1 :: vs1), rest)
          rw [List.cons_append, List.append_assoc, List.singleton_append]
          rw [parseVal_succ_arr, hskip, hhead]
          rw [if_neg (by simp [hcb])]
          rw [ihB v1 vs1 rest hsz]
          rfl
      | obj fs =>
        cases fs with
        | nil =>
          show parseVal (f + 1) ((lcurly :: (printFields [] ++ [rcurly])) ++ rest) =
            some (Json.obj [], rest)
          rw [show printFields [] = ([] : List Char) from rfl]
          rw [List.nil_append, List.cons_append, List.singleton_append]
          rw [parseVal_succ_lcurly]
          rw [skipWs_cons rcurly rest (by decide)]
          simp
        | cons g gs =>
          obtain ⟨k, w⟩ := g
          have hsz : sizeF ((k, w) :: gs) < f := by
            have h1 : sizeJ (Json.obj ((k, w) :: gs)) = sizeF ((k, w) :: gs) + 1 := rfl
            omega
          obtain ⟨t, ht⟩ := printFields_head k w gs
          have hform : printFields ((k, w) :: gs) ++ rcurly :: rest = '"' :: (t ++ rcurly :: rest) := by
            rw [ht]; rfl
          have hskip : skipWs (printFields ((k, w) :: gs) ++ rcurly :: rest) =
              printFields ((k, w) :: gs) ++ rcurly :: rest := by
            rw [hform]; exact skipWs_cons _ _ (by decide)
          have hhead : (printFields ((k, w) :: gs) ++ rcurly :: rest).head? = some '"' := by
            rw [hform]; rfl
          show parseVal (f + 1) ((lcurly :: (printFields ((k, w) :: gs) ++ [rcurly])) ++ rest) =
            some (Json.obj ((k, w) :: gs), rest)
          rw [List.cons_append, List.append_assoc, List.singleton_append]
          rw [parseVal_succ_lcurly, hskip, hhead]
          rw [if_neg (by decide)]
          rw [ihC k w gs rest hsz]
          rfl
    · -- parseElems round trip
      intro v vs rest hs
      cases vs with
      | nil =>
        have hsz : sizeJ v < f := by
          have h1 : sizeL [v] = sizeJ v + 0 + 1 := rfl
          omega
        have hA := ihA v (']' :: rest) hsz (by rfl)
        rw [show printElems [v] = printJson v from rfl]
        rw [parseElems, hA]
        simp [skipWs_cons ']' rest (by decide)]
      | cons w ws =>
        have hposw : 1 ≤ sizeJ w := sizeJ_pos w
        have hposv : 1 ≤ sizeJ v := sizeJ_pos v
        have h1 : sizeL (v :: w :: ws) = sizeJ v + sizeL (w :: ws) + 1 := rfl
        have h2 : sizeL (w :: ws) = sizeJ w + sizeL ws + 1 := rfl
        have hszv : sizeJ v < f := by omega
        have hszw : sizeL (w :: ws) < f := by omega
        have hA := ihA v (',' :: (printElems (w :: ws) ++ ']' :: rest)) hszv (by rfl)
        have hB := ihB w ws rest hszw
        rw [show printElems (v :: w :: ws) = printJson v ++ ',' :: printElems (w :: ws) from rfl]
        rw [List.append_assoc, List.cons_append]
        rw [parseElems, hA]
        simp [skipWs_cons ',' (printElems (w :: ws) ++ ']' :: rest) (by decide), hB]
    · -- parseFields round trip
      intro k v fs rest hs
      cases fs with
      | nil =>
        have hsz : sizeJ v < f := by
          have h1 : sizeF [(k, v)] = sizeJ v + 0 + 1 := rfl
          omega
        have hA := ihA v (rcurly :: rest) hsz (by rfl)
        have hnorm : printFields [(k, v)] ++ rcurly :: rest =
            '"' :: (escString k.data ++ ('"' :: (':' :: (printJson v ++ rcurly :: rest)))) := by
          rw [show printFields [(k, v)] =
            '"' :: escString k.data ++ '"' :: ':' :: printJson v from rfl]
          simp
        rw [hnorm, parseFields, skipWs_cons '"' _ (by decide)]
        simp only [if_pos rfl]
        rw [parseStringBody_escString k.data _ _ (by
          have hl1 := escString_length k.data
          have hl2 : (escString k.data ++ '"' :: (':' :: (printJson v ++ rcurly :: rest))).length =
              (escString k.data).length + ((':' :: (printJson v ++ rcurly :: rest)).length + 1) := by
            rw [List.length_append, List.length_cons]
          omega)]
        simp [skipWs_cons ':' _ (by decide), hA, skipWs_cons rcurly rest (by decide),
          (show ¬ (rcurly = ',') from by decide)]
      | cons g gs =>
        obtain ⟨k2, v2⟩ := g
        have hposv : 1 ≤ sizeJ v := sizeJ_pos v
        have h1 : sizeF ((k, v) :: (k2, v2) :: gs) = sizeJ v + sizeF ((k2, v2) :: gs) + 1 := rfl
        have h2 : sizeF ((k2, v2) :: gs) = sizeJ v2 + sizeF gs + 1 := rfl
        have hszv : sizeJ v < f := by omega
        have hszg : sizeF ((k2, v2) :: gs) < f := by omega
        have hA := ihA v (',' :: (printFields ((k2, v2) :: gs) ++ rcurly :: rest)) hszv (by rfl)
        have hC := ihC k2 v2 gs rest hszg
        have hnorm : printFields ((k, v) :: (k2, v2) :: gs) ++ rcurly :: rest =
            '"' :: (escString k.data ++ ('"' :: (':' :: (printJson v ++
              (',' :: (printFields ((k2, v2) :: gs) ++ rcurly :: rest)))))) := by
          rw [show printFields ((k, v) :: (k2, v2) :: gs) =
            '"' :: escString k.data ++ '"' :: ':' :: printJson v ++
              ',' :: printFields ((k2, v2) :: gs) from rfl]
          simp
        rw [hnorm, parseFields, skipWs_cons '"' _ (by decide)]
        simp only [if_pos rfl]
        rw [parseStringBody_escString k.data _ _ (by
          have hl1 := escString_length k.data
          have hl2 : (escString k.data ++ '"' :: (':' :: (printJson v ++
              (',' :: (printFields ((k2, v2) :: gs) ++ rcurly :: rest))))).length =
              (escString k.data).length + ((':' :: (printJson v ++
                (',' :: (printFields ((k2, v2) :: gs) ++ rcurly :: rest)))).length + 1) := by
            rw [List.length_append, List.length_cons]
          omega)]
        simp [skipWs_cons ':' _ (by decide), hA,
          skipWs_cons ',' (printFields ((k2, v2) :: gs) ++ rcurly :: rest) (by decide), hC]

theorem loads_dumps (v : Json) : loads (dumps v) = some v := by
  have hA := (parse_print_aux ((printJson v).length + 1)).1 v []
    (by have := sizeJ_le_print v; omega) (by rfl)
  rw [List.append_nil] at hA
  show loads ⟨printJson v⟩ = some v
  unfold loads
  rw [show (String.mk (printJson v)).data = printJson v from rfl, hA]
  rfl

theorem charListLe_total : ∀ a b : List Char, charListLe a b = true ∨ charListLe b a = true := by
  intro a
  induction a with
  | nil => intro b; left; rfl
  | cons x xs ih =>
    intro b
    cases b with
    | nil => right; rfl
    | cons y ys =>
      show (if x.toNat < y.toNat then true else if y.toNat < x.toNat then false else charListLe xs ys) = true ∨
        (if y.toNat < x.toNat then true else if x.toNat < y.toNat then false else charListLe ys xs) = true
      by_cases h1 : x.toNat < y.toNat
      · left; rw [if_pos h1]
      · by_cases h2 : y.toNat < x.toNat
        · right; rw [if_pos h2]
        · rw [if_neg h1, if_neg h2, if_neg h2, if_neg h1]
          exact ih ys

theorem charListLe_trans : ∀ a b c : List Char,
    charListLe a b = true → charListLe b c = true → charListLe a c = true := by
  intro a
  induction a with
  | nil => intro b c _ _; rfl
  | cons x xs ih =>
    intro b c hab hbc
    cases b with
    | nil => exact absurd hab (by simp [charListLe])
    | cons y ys =>
      cases c with
      | nil => exact absurd hbc (by simp [charListLe])
      | cons z zs =>
        revert hab hbc
        show (if x.toNat < y.toNat then true else if y.toNat < x.toNat then false else charListLe xs ys) = true →
          (if y.toNat < z.toNat then true else if z.toNat < y.toNat then false else charListLe ys zs) = true →
          (if x.toNat < z.toNat then true else if z.toNat < x.toNat then false else charListLe xs zs) = true
        intro hab hbc
        by_cases h1 : x.toNat < z.toNat
        · rw [if_pos h1]
        · rw [if_neg h1]
          by_cases h2 : z.toNat < x.toNat
          · exfalso
            by_cases h3 : x.toNat < y.toNat
            · by_cases h4 : y.toNat < z.toNat
              · omega
              · rw [if_neg h4] at hbc
                by_cases h5 : z.toNat < y.toNat
                · rw [if_pos h5] at hbc; exact absurd hbc (by simp)
                · omega
            · rw [if_neg h3] at hab
              by_cases h6 : y.toNat < x.toNat
              · rw [if_pos h6] at hab; exact absurd hab (by simp)
              · by_cases h4 : y.toNat < z.toNat
                · omega
                · rw [if_neg h4] at hbc
                  by_cases h5 : z.toNat < y.toNat
                  · rw [if_pos h5] at hbc; exact absurd hbc (by simp)
                  · omega
          · rw [if_neg h2]
            by_cases h3 : x.toNat < y.toNat
            · by_cases h4 : y.toNat < z.toNat
              · omega
              · rw [if_neg h4] at hbc
                by_cases h5 : z.toNat < y.toNat
                · rw [if_pos h5] at hbc; exact absurd hbc (by simp)
                · omega
            · rw [if_neg h3] at hab
              by_cases h6 : y.toNat < x.toNat
              · rw [if_pos h6] at hab; exact absurd hab (by simp)
              · rw [if_neg h6] at hab
                by_cases h4 : y.toNat < z.toNat
                · omega
                · rw [if_neg h4] at hbc
                  by_cases h5 : z.toNat < y.toNat
                  · rw [if_pos h5] at hbc; exact absurd hbc (by simp)
                  · rw [if_neg h5] at hbc
                    exact ih ys zs hab hbc

theorem charListLe_antisymm : ∀ a b : List Char,
    charListLe a b = true → charListLe b a = true → a = b := by
  intro a
  induction a with
  | nil =>
    intro b _ hba
    cases b with
    | nil => rfl
    | cons y ys => exact absurd hba (by simp [charListLe])
  | cons x xs ih =>
    intro b hab hba
    cases b with
    | nil => exact absurd hab (by simp [charListLe])
    | cons y ys =>
      revert hab hba
      show (if x.toNat < y.toNat then true else if y.toNat < x.toNat then false else charListLe xs ys) = true →
        (if y.toNat < x.toNat then true else if x.toNat < y.toNat then false else charListLe ys xs) = true →
        x :: xs = y :: ys
      intro hab hba
      by_cases h1 : x.toNat < y.toNat
      · rw [if_pos h1] at hba
        rw [if_neg (by omega : ¬ y.toNat < x.toNat)] at hba
        exact absurd hba (by simp)
      · by_cases h2 : y.toNat < x.toNat
        · rw [if_neg h1, if_pos h2] at hab
          exact absurd hab (by simp)
        · rw [if_neg h1, if_neg h2] at hab
          rw [if_neg h2, if_neg h1] at hba
          have hx : x = y := by
            have : x.toNat = y.toNat := by omega
            calc x = Char.ofNat x.toNat := (Char.ofNat_toNat x).symm
            _ = Char.ofNat y.toNat := by rw [this]
            _ = y := Char.ofNat_toNat y
          rw [hx, ih ys hab hba]

theorem strLe_total (a b : String) : strLe a b = true ∨ strLe b a = true :=
  charListLe_total a.data b.data

theorem strLe_trans (a b c : String) (h1 : strLe a b = true) (h2 : strLe b c = true) :
    strLe a c = true :=
  charListLe_trans a.data b.data c.data h1 h2

theorem strLe_antisymm (a b : String) (h1 : strLe a b = true) (h2 : strLe b a = true) : a = b := by
  cases a with
  | mk da => cases b with
    | mk db2 => exact congrArg String.mk (charListLe_antisymm da db2 h1 h2)

theorem strLe_refl (a : String) : strLe a a = true := by
  rcases strLe_total a a with h | h <;> exact h

theorem strLt_iff_not_le (a b : String) : strLt a b = true ↔ ¬ strLe b a = true := by
  unfold strLt
  cases strLe b a <;> simp

theorem mapRows_some {α β : Type} (f : α → Option β) (l : List α)
    (h : ∀ x ∈ l, (f x).isSome = true) :
    ∃ ys, mapRows f l = some ys ∧ List.Forall₂ (fun x y => f x = some y) l ys := by
  induction l with
  | nil => exact ⟨[], rfl, List.Forall₂.nil⟩
  | cons x xs ih =>
    obtain ⟨ys, hys, hfa⟩ := ih (fun a ha => h a (List.mem_cons_of_mem _ ha))
    have hx := h x (List.mem_cons_self _ _)
    match hfx : f x with
    | none => rw [hfx] at hx; simp at hx
    | some y =>
      refine ⟨y :: ys, ?_, List.Forall₂.cons hfx hfa⟩
      show (match f x with
        | none => none
        | some y => (mapRows f xs).map (fun ys => y :: ys)) = some (y :: ys)
      rw [hfx, hys]
      rfl

theorem mapRows_none {α β : Type} (f : α → Option β) (l : List α) (x : α)
    (hx : x ∈ l) (hfx : f x = none) : mapRows f l = none := by
  induction l with
  | nil => simp at hx
  | cons a as ih =>
    show (match f a with
      | none => none
      | some y => (mapRows f as).map (fun ys => y :: ys)) = none
    rcases List.mem_cons.1 hx with h | h
    · subst h; rw [hfx]
    · match hfa : f a with
      | none => rfl
      | some y => rw [ih h]; rfl

theorem forall₂_mem_left {α β : Type} {R : α → β → Prop} {l : List α} {ys : List β}
    (h : List.Forall₂ R l ys) (x : α) (hx : x ∈ l) : ∃ y ∈ ys, R x y := by
  induction h with
  | nil => simp at hx
  | cons hr hrest ih =>
    rcases List.mem_cons.1 hx with h1 | h1
    · subst h1; exact ⟨_, List.mem_cons_self _ _, hr⟩
    · obtain ⟨y, hy, hxy⟩ := ih h1
      exact ⟨y, List.mem_cons_of_mem _ hy, hxy⟩

theorem forall₂_mem_right {α β : Type} {R : α → β → Prop} {l : List α} {ys : List β}
    (h : List.Forall₂ R l ys) (y : β) (hy : y ∈ ys) : ∃ x ∈ l, R x y := by
  induction h with
  | nil => simp at hy
  | cons hr hrest ih =>
    rcases List.mem_cons.1 hy with h1 | h1
    · subst h1; exact ⟨_, List.mem_cons_self _ _, hr⟩
    · obtain ⟨x, hx, hxy⟩ := ih h1
      exact ⟨x, List.mem_cons_of_mem _ hx, hxy⟩

theorem pairwise_of_forall₂ {α β : Type} {R : α → β → Prop} {P : α → α → Prop}
    {Q : β → β → Prop} {l : List α} {ys : List β}
    (h : List.Forall₂ R l ys) (hp : List.Pairwise P l)
    (himp : ∀ a b a2 b2, R a a2 → R b b2 → P a b → Q a2 b2) :
    List.Pairwise Q ys := by
  induction h with
  | nil => exact List.Pairwise.nil
  | cons hr hrest ih =>
    rcases List.pairwise_cons.1 hp with ⟨hhead, htail⟩
    refine List.Pairwise.cons ?_ (ih htail)
    intro y2 hy2
    obtain ⟨x2, hx2, hrx2⟩ := forall₂_mem_right hrest y2 hy2
    exact himp _ _ _ _ hr hrx2 (hhead x2 hx2)

/-- Claim C1: create_policy returns an identifier strictly greater than every identifier
already in the store, and an immediate get_policy on it returns a record with status
"draft", created_at equal to updated_at (both the creation clock value), and the four
input fields stored unchanged. The DBWf invariant (every stored id is at most the
sequence counter) is preserved, so the bound extends to all previous calls. -/
theorem create_policy_spec (db : DB) (now title category target_audience description : String)
    (hwf : DBWf db) :
    ∃ id db2, create_policy db now title category target_audience description = (id, db2) ∧
      (∀ p ∈ db.policies, p.id < id) ∧
      get_policy db2 id =
        some ⟨id, title, category, target_audience, description, "draft", now, now⟩ ∧
      DBWf db2 := by
  refine ⟨db.policySeq + 1, _, rfl, ?_, ?_, ?_⟩
  · intro p hp
    exact Nat.lt_succ_of_le (hwf p hp)
  · show (db.policies ++ [_]).find? (fun p : PolicyRow => p.id == db.policySeq + 1) = _
    rw [List.find?_append]
    have h1 : db.policies.find? (fun p : PolicyRow => p.id == db.policySeq + 1) = none := by
      rw [List.find?_eq_none]
      intro p hp
      have := hwf p hp
      simp only [beq_iff_eq]
      omega
    rw [h1, Option.none_or]
    simp [List.find?]
  · intro p hp
    rcases List.mem_append.1 hp with h | h
    · exact Nat.le_succ_of_le (hwf p h)
    · rcases List.mem_singleton.1 h with rfl
      exact Nat.le_refl _

/-- Witness for C1 at a concrete store. -/
theorem create_policy_spec_witness :
    DBWf emptyDB ∧
    (∃ id db2, create_policy emptyDB "2024-01-01T10:00:00" "title" "cat" "aud" "desc" =
        (id, db2) ∧
      (∀ p ∈ emptyDB.policies, p.id < id) ∧
      get_policy db2 id =
        some ⟨id, "title", "cat", "aud", "desc", "draft", "2024-01-01T10:00:00",
          "2024-01-01T10:00:00"⟩ ∧
      DBWf db2) :=
  ⟨fun p hp => absurd hp (List.not_mem_nil p),
   create_policy_spec emptyDB "2024-01-01T10:00:00" "title" "cat" "aud" "desc"
     (fun p hp => absurd hp (List.not_mem_nil p))⟩

/-- Claim C5: for an existing policy and any status string (no enumeration is enforced),
update_policy_status followed by get_policy returns that string as status, and the
updated_at is not below the previous one, given that the clock value passed is not
below the previous updated_at. -/
theorem update_policy_status_spec (db : DB) (now : String) (pid : Nat) (s : String)
    (p : PolicyRow) (hp : get_policy db pid = some p)
    (hnow : strLe p.updated_at now = true) :
    ∃ q, get_policy (update_policy_status db now pid s) pid = some q ∧
      q.status = s ∧ strLe p.updated_at q.updated_at = true := by
  have hpred : (fun x : PolicyRow => x.id == pid) ∘
      (fun x : PolicyRow => if x.id = pid then { x with status := s, updated_at := now } else x) =
      (fun x : PolicyRow => x.id == pid) := by
    funext x
    by_cases hx : x.id = pid
    · simp [Function.comp, hx]
    · simp [Function.comp, hx]
  have hq : get_policy (update_policy_status db now pid s) pid =
      (db.policies.find? (fun x => x.id == pid)).map
        (fun x => if x.id = pid then { x with status := s, updated_at := now } else x) := by
    show (db.policies.map _).find? _ = _
    rw [List.find?_map, hpred]
  have hfind : db.policies.find? (fun x => x.id == pid) = some p := hp
  have hpid : p.id = pid := by
    have := List.find?_some hfind
    exact beq_iff_eq.1 this
  refine ⟨{ p with status := s, updated_at := now }, ?_, rfl, hnow⟩
  rw [hq, hfind]
  show some (if p.id = pid then { p with status := s, updated_at := now } else p) = _
  rw [if_pos hpid]

/-- Witness for C5 at a concrete store. -/
theorem update_policy_status_spec_witness :
    (get_policy (create_policy emptyDB "2024-01-01T10:00:00" "t" "c" "a" "d").2 1 =
      some ⟨1, "t", "c", "a", "d", "draft", "2024-01-01T10:00:00", "2024-01-01T10:00:00"⟩) ∧
    (strLe "2024-01-01T10:00:00" "2024-01-02T09:00:00" = true) ∧
    (∃ q, get_policy
        (update_policy_status (create_policy emptyDB "2024-01-01T10:00:00" "t" "c" "a" "d").2
          "2024-01-02T09:00:00" 1 "active") 1 = some q ∧
      q.status = "active" ∧ strLe "2024-01-01T10:00:00" q.updated_at = true) :=
  ⟨rfl, rfl,
   update_policy_status_spec (create_policy emptyDB "2024-01-01T10:00:00" "t" "c" "a" "d").2
     "2024-01-02T09:00:00" 1 "active"
     ⟨1, "t", "c", "a", "d", "draft", "2024-01-01T10:00:00", "2024-01-01T10:00:00"⟩ rfl rfl⟩

/-- Claim C6: update_policy_status leaves the other tables and the sequence counters
unchanged; for the addressed row only status and updated_at may change (id, title,
category, target_audience, description and created_at are preserved); rows with a
different id are entirely unchanged; and when no row has the given id the whole store
is unchanged (the call is a silent no-op, returning a store rather than an error). -/
theorem update_policy_status_frame (db : DB) (now : String) (pid : Nat) (s : String) :
    (update_policy_status db now pid s).policy_contents = db.policy_contents ∧
    (update_policy_status db now pid s).generated_media = db.generated_media ∧
    (update_policy_status db now pid s).policySeq = db.policySeq ∧
    (update_policy_status db now pid s).contentSeq = db.contentSeq ∧
    (update_policy_status db now pid s).mediaSeq = db.mediaSeq ∧
    List.Forall₂ (fun p q => q.id = p.id ∧ q.title = p.title ∧ q.category = p.category ∧
      q.target_audience = p.target_audience ∧ q.description = p.description ∧
      q.created_at = p.created_at ∧ (p.id ≠ pid → q = p))
      db.policies (update_policy_status db now pid s).policies ∧
    ((∀ p ∈ db.policies, p.id ≠ pid) → update_policy_status db now pid s = db) := by
  refine ⟨rfl, rfl, rfl, rfl, rfl, ?_, ?_⟩
  · show List.Forall₂ _ db.policies (db.policies.map _)
    rw [List.forall₂_map_right_iff]
    rw [List.forall₂_same]
    intro x hx
    by_cases hid : x.id = pid
    · refine ⟨by simp [hid], by simp [hid], by simp [hid], by simp [hid], by simp [hid],
        by simp [hid], fun h => absurd hid h⟩
    · simp [hid]
  · intro hall
    show { db with policies := db.policies.map _ } = db
    have h2 : ∀ a ∈ db.policies, (if a.id = pid then
        { a with status := s, updated_at := now } else a) = id a := by
      intro a ha
      simp [hall a ha]
    rw [List.map_congr_left h2, List.map_id]

/-- Witness for C6: at a concrete store whose only policy has id 1, updating id 99
leaves the store unchanged. -/
theorem update_policy_status_frame_witness :
    update_policy_status (create_policy emptyDB "2024-01-01T10:00:00" "t" "c" "a" "d").2
      "2024-01-02T09:00:00" 99 "active" =
    (create_policy emptyDB "2024-01-01T10:00:00" "t" "c" "a" "d").2 :=
  (update_policy_status_frame (create_policy emptyDB "2024-01-01T10:00:00" "t" "c" "a" "d").2
    "2024-01-02T09:00:00" 99 "active").2.2.2.2.2.2
    (by
      intro p hp
      have : p = ⟨1, "t", "c", "a", "d", "draft", "2024-01-01T10:00:00",
          "2024-01-01T10:00:00"⟩ := by
        rcases List.mem_singleton.1 hp with rfl
        rfl
      rw [this]
      decide)

/-- Claim C3: when the start date lies after the end date (on the extracted calendar
dates, which for ISO-8601 text compare bytewise exactly as chronologically),
get_policies_by_date_range returns the empty sequence whatever policies are stored.
This mirrors the SQL BETWEEN operator, which is defined as a conjunction of the two
bound comparisons and is never satisfied when the bounds are reversed. -/
theorem get_policies_by_date_range_reversed (db : DB) (s e ds de : String)
    (hs : sqlDate s = some ds) (he : sqlDate e = some de)
    (hlt : strLe ds de = false) :
    get_policies_by_date_range db s e = [] := by
  unfold get_policies_by_date_range
  have hfil : db.policies.filter (fun p =>
      match sqlDate p.created_at, sqlDate s, sqlDate e with
      | some x, some lo, some hi => strLe lo x && strLe x hi
      | _, _, _ => false) = [] := by
    rw [List.filter_eq_nil_iff]
    intro p _
    rw [hs, he]
    match sqlDate p.created_at with
    | none => simp
    | some x =>
      show ¬ (strLe ds x && strLe x de) = true
      intro hband
      rw [Bool.and_eq_true] at hband
      rcases hband with ⟨h1, h2⟩
      rw [strLe_trans ds x de h1 h2] at hlt
      exact absurd hlt (by decide)
  rw [hfil]
  rfl

/-- Witness for C3 at a concrete store with one stored policy. -/
theorem get_policies_by_date_range_reversed_witness :
    sqlDate "2024-01-07" = some "2024-01-07" ∧
    sqlDate "2024-01-02" = some "2024-01-02" ∧
    strLe "2024-01-07" "2024-01-02" = false ∧
    get_policies_by_date_range (create_policy emptyDB "2024-01-05T10:00:00" "t" "c" "a" "d").2
      "2024-01-07" "2024-01-02" = [] :=
  ⟨rfl, rfl, rfl,
   get_policies_by_date_range_reversed
     (create_policy emptyDB "2024-01-05T10:00:00" "t" "c" "a" "d").2
     "2024-01-07" "2024-01-02" "2024-01-07" "2024-01-02" rfl rfl rfl⟩

/-- Claim C7: a single-day range query returns exactly the same sequence as the
single-date query: the range predicate with equal bounds holds exactly when the
extracted date equals the bound, by antisymmetry of the bytewise order. -/
theorem get_policies_by_date_range_single_day (db : DB) (d : String) :
    get_policies_by_date_range db d d = get_policies_by_date db d := by
  unfold get_policies_by_date_range get_policies_by_date
  congr 1
  apply List.filter_congr
  intro p _
  match sqlDate p.created_at, sqlDate d with
  | none, none => rfl
  | none, some v => rfl
  | some x, none => rfl
  | some x, some v =>
    show (strLe v x && strLe x v) = (x == v)
    by_cases hxv : x = v
    · subst hxv
      rw [strLe_refl, beq_self_eq_true]
      rfl
    · have hne : (x == v) = false := beq_eq_false_iff_ne.2 hxv
      rw [hne]
      cases h1 : strLe v x with
      | false => rfl
      | true =>
        cases h2 : strLe x v with
        | false => rfl
        | true => exact absurd (strLe_antisymm x v h2 h1) hxv

/-- Claim C8: with a non-negative limit, get_all_policies returns at most limit rows,
and the returned sequence is sorted by created_at in descending byte order (most
recent first). -/
theorem get_all_policies_spec (db : DB) (limit : Int) (h : 0 ≤ limit) :
    ((get_all_policies db limit).length : Int) ≤ limit ∧
    List.Sorted policyDesc (get_all_policies db limit) := by
  unfold get_all_policies
  rw [if_neg (by omega : ¬ limit < 0)]
  constructor
  · have hlen : (List.take limit.toNat (List.insertionSort policyDesc db.policies)).length
        ≤ limit.toNat := by
      rw [List.length_take]
      exact Nat.min_le_left _ _
    calc ((List.take limit.toNat (List.insertionSort policyDesc db.policies)).length : Int)
        ≤ (limit.toNat : Int) := by exact_mod_cast hlen
      _ = limit := Int.toNat_of_nonneg h
  · haveI : IsTotal PolicyRow policyDesc := ⟨fun a b => strLe_total b.created_at a.created_at⟩
    haveI : IsTrans PolicyRow policyDesc :=
      ⟨fun a b c h1 h2 => strLe_trans c.created_at b.created_at a.created_at h2 h1⟩
    exact List.Pairwise.sublist (List.take_sublist _ _)
      (List.sorted_insertionSort policyDesc db.policies)

/-- Witness for C8 at a concrete store with two policies and limit 1. -/
theorem get_all_policies_spec_witness :
    ((0 : Int) ≤ 1) ∧
    ((get_all_policies
        (create_policy (create_policy emptyDB "2024-01-05T10:00:00" "t" "c" "a" "d").2
          "2024-01-06T10:00:00" "t2" "c2" "a2" "d2").2 1).length : Int) ≤ 1 ∧
    List.Sorted policyDesc (get_all_policies
      (create_policy (create_policy emptyDB "2024-01-05T10:00:00" "t" "c" "a" "d").2
        "2024-01-06T10:00:00" "t2" "c2" "a2" "d2").2 1) :=
  ⟨by decide,
   (get_all_policies_spec
     (create_policy (create_policy emptyDB "2024-01-05T10:00:00" "t" "c" "a" "d").2
       "2024-01-06T10:00:00" "t2" "c2" "a2" "d2").2 1 (by decide)).1,
   (get_all_policies_spec
     (create_policy (create_policy emptyDB "2024-01-05T10:00:00" "t" "c" "a" "d").2
       "2024-01-06T10:00:00" "t2" "c2" "a2" "d2").2 1 (by decide)).2⟩

theorem dumps_ne_empty (v : Json) : ¬ dumps v = "" := by
  obtain ⟨c, cs, hc, _, _⟩ := printJson_cons v
  unfold dumps
  rw [hc]
  intro h
  have : (c :: cs : List Char) = [] := congrArg String.data h
  simp at this

theorem decodeContentRow_saved (now : String) (pid cid : Nat) (ct : String)
    (payload md : Json) :
    decodeContentRow ⟨cid, pid, ct, dumps payload, some (dumps md), now⟩ =
      some ⟨cid, pid, ct, payload, md, now⟩ := by
  show (match loads (dumps payload) with
    | none => none
    | some cd =>
      match (if dumps md = "" then some (Json.obj []) else loads (dumps md)) with
      | none => none
      | some md2 => some (⟨cid, pid, ct, cd, md2, now⟩ : ContentOut)) =
    some (⟨cid, pid, ct, payload, md, now⟩ : ContentOut)
  rw [loads_dumps payload, if_neg (dumps_ne_empty md), loads_dumps md]

/-- Shared helper for C2 and C10: saving a content row and immediately listing the
policy contents succeeds (given every previously stored row deserializes), and the
listing contains a row whose decoded content_data is the saved payload and whose
decoded metadata is the saved metadata after the None/falsy-to-empty-object rule. -/
theorem save_content_then_get (db : DB) (now : String) (pid : Nat) (ct : String)
    (payload : Json) (metadata : Option Json) (hwf : CWf db) :
    ∃ l, get_policy_contents (save_policy_content db now pid ct payload metadata) pid = some l ∧
      ∃ r ∈ l, r.content_data = payload ∧
        r.metadata = (match metadata with
          | some m => if jsonTruthy m then m else Json.obj []
          | none => Json.obj []) := by
  set md := (match metadata with
    | some m => if jsonTruthy m then m else Json.obj []
    | none => Json.obj []) with hmd
  set newRow : ContentRow :=
    ⟨db.contentSeq + 1, pid, ct, dumps payload, some (dumps md), now⟩ with hnew
  have hdb2 : (save_policy_content db now pid ct payload metadata).policy_contents =
      db.policy_contents ++ [newRow] := rfl
  have hmem : newRow ∈ List.insertionSort contentDesc
      ((db.policy_contents ++ [newRow]).filter (fun r => r.policy_id == pid)) := by
    rw [List.Perm.mem_iff (List.perm_insertionSort _ _)]
    rw [List.mem_filter]
    refine ⟨List.mem_append_right _ (List.mem_singleton.2 rfl), ?_⟩
    rw [hnew]
    simp
  have hok : ∀ r ∈ List.insertionSort contentDesc
      ((db.policy_contents ++ [newRow]).filter (fun r => r.policy_id == pid)),
      (decodeContentRow r).isSome = true := by
    intro r hr
    rw [List.Perm.mem_iff (List.perm_insertionSort _ _)] at hr
    rcases (List.mem_filter.1 hr).1 |> List.mem_append.1 with h | h
    · exact hwf r h
    · rcases List.mem_singleton.1 h with rfl
      rw [hnew, decodeContentRow_saved]
      rfl
  obtain ⟨l, hl, hfa⟩ := mapRows_some decodeContentRow _ hok
  refine ⟨l, ?_, ?_⟩
  · show mapRows decodeContentRow (List.insertionSort contentDesc
      (((save_policy_content db now pid ct payload metadata).policy_contents).filter
        (fun r => r.policy_id == pid))) = some l
    rw [hdb2]
    exact hl
  · obtain ⟨y, hy, hdy⟩ := forall₂_mem_left hfa newRow hmem
    rw [hnew, decodeContentRow_saved] at hdy
    rcases Option.some.inj hdy with rfl
    exact ⟨_, hy, rfl, rfl⟩

/-- Claim C2: save_policy_content followed by get_policy_contents round-trips the
structured payload and (dictionary) metadata exactly: the listing contains a row whose
deserialized content_data equals the saved payload and whose deserialized metadata
equals the saved metadata dictionary. -/
theorem save_policy_content_roundtrip (db : DB) (now : String) (pid : Nat) (ct : String)
    (payload : Json) (fields : List (String × Json)) (hwf : CWf db) :
    ∃ l, get_policy_contents
        (save_policy_content db now pid ct payload (some (Json.obj fields))) pid = some l ∧
      ∃ r ∈ l, r.content_data = payload ∧ r.metadata = Json.obj fields := by
  have h := save_content_then_get db now pid ct payload (some (Json.obj fields)) hwf
  have hsimp : (match some (Json.obj fields) with
      | some m => if jsonTruthy m then m else Json.obj []
      | none => Json.obj []) = Json.obj fields := by
    cases fields with
    | nil => rfl
    | cons f fs => rfl
  rw [hsimp] at h
  exact h

/-- Witness for C2 at a concrete store with a nested payload and nonempty metadata. -/
theorem save_policy_content_roundtrip_witness :
    CWf emptyDB ∧
    ∃ l, get_policy_contents
        (save_policy_content emptyDB "2024-01-02T10:00:00" 1 "analysis"
          (Json.arr [Json.num 12, Json.str "한글\n", Json.obj [("k", Json.bool true)]])
          (some (Json.obj [("m", Json.num (-2))]))) 1 = some l ∧
      ∃ r ∈ l, r.content_data =
          Json.arr [Json.num 12, Json.str "한글\n", Json.obj [("k", Json.bool true)]] ∧
        r.metadata = Json.obj [("m", Json.num (-2))] :=
  ⟨fun r hr => absurd hr (List.not_mem_nil r),
   save_policy_content_roundtrip emptyDB "2024-01-02T10:00:00" 1 "analysis"
     (Json.arr [Json.num 12, Json.str "한글\n", Json.obj [("k", Json.bool true)]])
     [("m", Json.num (-2))]
     (fun r hr => absurd hr (List.not_mem_nil r))⟩

/-- Claim C10: when the metadata argument is omitted (None), the stored row has
metadata serialized as the empty JSON object text, and get_policy_contents returns
that row with metadata equal to the empty object: callers never observe an absent
metadata value for rows written by save_policy_content. -/
theorem save_policy_content_none_metadata (db : DB) (now : String) (pid : Nat) (ct : String)
    (payload : Json) (hwf : CWf db) :
    (∃ row ∈ (save_policy_content db now pid ct payload none).policy_contents,
        row.metadata = some "\x7b\x7d") ∧
    ∃ l, get_policy_contents (save_policy_content db now pid ct payload none) pid = some l ∧
      ∃ r ∈ l, r.content_data = payload ∧ r.metadata = Json.obj [] := by
  constructor
  · refine ⟨⟨db.contentSeq + 1, pid, ct, dumps payload, some (dumps (Json.obj [])), now⟩,
      List.mem_append_right _ (List.mem_singleton.2 rfl), ?_⟩
    rfl
  · exact save_content_then_get db now pid ct payload none hwf

/-- Witness for C10 at a concrete store. -/
theorem save_policy_content_none_metadata_witness :
    CWf emptyDB ∧
    ((∃ row ∈ (save_policy_content emptyDB "2024-01-02T10:00:00" 1 "analysis"
          (Json.obj [("k", Json.num 3)]) none).policy_contents,
        row.metadata = some "\x7b\x7d") ∧
    ∃ l, get_policy_contents (save_policy_content emptyDB "2024-01-02T10:00:00" 1 "analysis"
        (Json.obj [("k", Json.num 3)]) none) 1 = some l ∧
      ∃ r ∈ l, r.content_data = Json.obj [("k", Json.num 3)] ∧ r.metadata = Json.obj []) :=
  ⟨fun r hr => absurd hr (List.not_mem_nil r),
   save_policy_content_none_metadata emptyDB "2024-01-02T10:00:00" 1 "analysis"
     (Json.obj [("k", Json.num 3)]) (fun r hr => absurd hr (List.not_mem_nil r))⟩

theorem decodeMediaRow_fields (r : MediaRow) (o : MediaOut) (h : decodeMediaRow r = some o) :
    o.policy_id = r.policy_id ∧ o.media_type = r.media_type ∧ o.created_at = r.created_at := by
  unfold decodeMediaRow at h
  split at h
  · exact absurd h (by simp)
  · rcases Option.some.inj h with rfl
    exact ⟨rfl, rfl, rfl⟩

theorem decode_media_sorted (rows : List MediaRow)
    (hok : ∀ r ∈ rows, (decodeMediaRow r).isSome = true) :
    ∃ l, mapRows decodeMediaRow (List.insertionSort mediaDesc rows) = some l ∧
      List.Sorted mediaOutDesc l ∧
      (∀ o ∈ l, ∃ r ∈ rows, decodeMediaRow r = some o) ∧
      (∀ r ∈ rows, ∃ o ∈ l, decodeMediaRow r = some o) ∧
      l.length = rows.length := by
  have hok2 : ∀ r ∈ List.insertionSort mediaDesc rows, (decodeMediaRow r).isSome = true :=
    fun r hr => hok r ((List.perm_insertionSort _ _).mem_iff.1 hr)
  obtain ⟨l, hl, hfa⟩ := mapRows_some _ _ hok2
  haveI : IsTotal MediaRow mediaDesc := ⟨fun a b => strLe_total b.created_at a.created_at⟩
  haveI : IsTrans MediaRow mediaDesc :=
    ⟨fun a b c h1 h2 => strLe_trans c.created_at b.created_at a.created_at h2 h1⟩
  refine ⟨l, hl, ?_, ?_, ?_, ?_⟩
  · apply pairwise_of_forall₂ hfa (List.sorted_insertionSort mediaDesc rows)
    intro a b a2 b2 ha hb hab
    have hf1 := decodeMediaRow_fields a a2 ha
    have hf2 := decodeMediaRow_fields b b2 hb
    show strLe b2.created_at a2.created_at = true
    rw [hf1.2.2, hf2.2.2]
    exact hab
  · intro o ho
    obtain ⟨r, hr, hro⟩ := forall₂_mem_right hfa o ho
    exact ⟨r, (List.perm_insertionSort _ _).mem_iff.1 hr, hro⟩
  · intro r hr
    obtain ⟨o, ho, hro⟩ := forall₂_mem_left hfa r ((List.perm_insertionSort _ _).mem_iff.2 hr)
    exact ⟨o, ho, hro⟩
  · rw [← List.Forall₂.length_eq hfa]
    exact (List.perm_insertionSort _ _).length_eq

/-- Counterexample for C9 as stated: the empty string is a non-null media type, yet
get_generated_media with it returns every stored row of the policy (Python truthiness
treats the empty string like None), including one whose media_type is "image". -/
theorem get_generated_media_empty_type_cex :
    ∃ l, get_generated_media mediaCexDB 1 (some "") = some l ∧
      ∃ o ∈ l, ¬ o.media_type = "" := by
  refine ⟨[⟨1, 1, "image", none, some [7], some "p", Json.obj [], "2024-01-01T10:00:00"⟩],
    rfl, _, List.mem_singleton.2 rfl, by decide⟩

/-- Claim C9 amended: for a policy id and a non-null, NON-EMPTY media type (the code
treats the empty string like None through Python truthiness), get_generated_media
returns exactly the stored rows of that policy with that media type, newest first;
with None it returns the rows of all media types of that policy, newest first. The
store is assumed wellformed (every stored generation_params text deserializes). -/
theorem get_generated_media_spec (db : DB) (pid : Nat) (t : String)
    (hwf : MWf db) (ht : ¬ t = "") :
    (∃ l, get_generated_media db pid (some t) = some l ∧
      List.Sorted mediaOutDesc l ∧
      (∀ o ∈ l, o.policy_id = pid ∧ o.media_type = t) ∧
      (∀ r ∈ db.generated_media, r.policy_id = pid → r.media_type = t →
        ∃ o ∈ l, decodeMediaRow r = some o) ∧
      l.length = (db.generated_media.filter
        (fun r => r.policy_id == pid && r.media_type == t)).length) ∧
    (∃ l, get_generated_media db pid none = some l ∧
      List.Sorted mediaOutDesc l ∧
      (∀ o ∈ l, o.policy_id = pid) ∧
      (∀ r ∈ db.generated_media, r.policy_id = pid →
        ∃ o ∈ l, decodeMediaRow r = some o) ∧
      l.length = (db.generated_media.filter (fun r => r.policy_id == pid)).length) := by
  constructor
  · have hok : ∀ r ∈ db.generated_media.filter
        (fun r => r.policy_id == pid && r.media_type == t),
        (decodeMediaRow r).isSome = true :=
      fun r hr => hwf r (List.mem_filter.1 hr).1
    obtain ⟨l, hl, hsort, hback, hfwd, hlen⟩ := decode_media_sorted _ hok
    have hget : get_generated_media db pid (some t) =
        mapRows decodeMediaRow (List.insertionSort mediaDesc
          (db.generated_media.filter (fun r => r.policy_id == pid && r.media_type == t))) := by
      show mapRows decodeMediaRow (List.insertionSort mediaDesc
        (if t = "" then db.generated_media.filter (fun r => r.policy_id == pid)
         else db.generated_media.filter (fun r => r.policy_id == pid && r.media_type == t))) = _
      rw [if_neg ht]
    refine ⟨l, by rw [hget]; exact hl, hsort, ?_, ?_, hlen⟩
    · intro o ho
      obtain ⟨r, hr, hro⟩ := hback o ho
      have hpred := (List.mem_filter.1 hr).2
      rw [Bool.and_eq_true] at hpred
      have hf := decodeMediaRow_fields r o hro
      refine ⟨?_, ?_⟩
      · rw [hf.1]; exact beq_iff_eq.1 hpred.1
      · rw [hf.2.1]; exact beq_iff_eq.1 hpred.2
    · intro r hr h1 h2
      exact hfwd r (List.mem_filter.2 ⟨hr, by simp [h1, h2]⟩)
  · have hok : ∀ r ∈ db.generated_media.filter (fun r => r.policy_id == pid),
        (decodeMediaRow r).isSome = true :=
      fun r hr => hwf r (List.mem_filter.1 hr).1
    obtain ⟨l, hl, hsort, hback, hfwd, hlen⟩ := decode_media_sorted _ hok
    refine ⟨l, hl, hsort, ?_, ?_, hlen⟩
    · intro o ho
      obtain ⟨r, hr, hro⟩ := hback o ho
      have hpred := (List.mem_filter.1 hr).2
      have hf := decodeMediaRow_fields r o hro
      rw [hf.1]
      exact beq_iff_eq.1 hpred
    · intro r hr h1
      exact hfwd r (List.mem_filter.2 ⟨hr, by simp [h1]⟩)

/-- Witness for the amended C9 at a concrete store. -/
theorem get_generated_media_spec_witness :
    MWf mediaCexDB ∧ (¬ "image" = "") ∧
    ((∃ l, get_generated_media mediaCexDB 1 (some "image") = some l ∧
      List.Sorted mediaOutDesc l ∧
      (∀ o ∈ l, o.policy_id = 1 ∧ o.media_type = "image") ∧
      (∀ r ∈ mediaCexDB.generated_media, r.policy_id = 1 → r.media_type = "image" →
        ∃ o ∈ l, decodeMediaRow r = some o) ∧
      l.length = (mediaCexDB.generated_media.filter
        (fun r => r.policy_id == 1 && r.media_type == "image")).length) ∧
    (∃ l, get_generated_media mediaCexDB 1 none = some l ∧
      List.Sorted mediaOutDesc l ∧
      (∀ o ∈ l, o.policy_id = 1) ∧
      (∀ r ∈ mediaCexDB.generated_media, r.policy_id = 1 →
        ∃ o ∈ l, decodeMediaRow r = some o) ∧
      l.length = (mediaCexDB.generated_media.filter (fun r => r.policy_id == 1)).length)) :=
  ⟨fun r hr => by rcases List.mem_singleton.1 hr with rfl; rfl,
   by decide,
   get_generated_media_spec mediaCexDB 1 "image"
     (fun r hr => by rcases List.mem_singleton.1 hr with rfl; rfl)
     (by decide)⟩

/-- Counterexample for C4 as stated: in a store holding one row whose content_data is
not valid JSON and one wellformed row for the same policy, get_policy_contents fails
the entire listing (the deserialization error propagates) instead of returning the
remaining wellformed row. -/
theorem get_policy_contents_corrupt_cex :
    loads "oops" = none ∧
    (decodeContentRow
      ⟨2, 1, "analysis", "\x7b\x7d", some "\x7b\x7d", "2024-01-02T10:00:00"⟩).isSome = true ∧
    get_policy_contents corruptDB 1 = none :=
  ⟨rfl, rfl, rfl⟩

/-- Claim C4 amended: a stored row whose content_data text, or whose non-empty
metadata text, is not valid JSON causes get_policy_contents for its policy to fail
as a whole (either json.loads call raises and the per-row deserialization error
aborts the listing); the wellformed rows are not returned. -/
theorem get_policy_contents_corrupt_aborts (db : DB) (pid : Nat) (r : ContentRow)
    (hr : r ∈ db.policy_contents) (hpid : r.policy_id = pid)
    (hbad : loads r.content_data = none ∨
      ∃ s, r.metadata = some s ∧ ¬ s = "" ∧ loads s = none) :
    get_policy_contents db pid = none := by
  have hdec : decodeContentRow r = none := by
    rcases hbad with hb | ⟨s, hms, hse, hls⟩
    · unfold decodeContentRow
      rw [hb]
    · match hlc : loads r.content_data with
      | none =>
        unfold decodeContentRow
        rw [hlc]
      | some cd =>
        simp [decodeContentRow, hlc, hms, hse, hls]
  apply mapRows_none decodeContentRow _ r _ hdec
  rw [(List.perm_insertionSort _ _).mem_iff]
  rw [List.mem_filter]
  exact ⟨hr, by simp [hpid]⟩

/-- Witness for the amended C4, exercising both corruption branches: a store with
a corrupt content_data text and a store with a corrupt metadata text, each failing
the whole listing. -/
theorem get_policy_contents_corrupt_aborts_witness :
    (⟨1, 1, "analysis", "oops", some "\x7b\x7d", "2024-01-01T10:00:00"⟩ : ContentRow) ∈
      corruptDB.policy_contents ∧
    loads "oops" = none ∧
    get_policy_contents corruptDB 1 = none ∧
    (⟨1, 1, "analysis", "\x7b\x7d", some "oops", "2024-01-01T10:00:00"⟩ : ContentRow) ∈
      corruptMetaDB.policy_contents ∧
    get_policy_contents corruptMetaDB 1 = none :=
  ⟨List.mem_cons_self _ _, rfl,
   get_policy_contents_corrupt_aborts corruptDB 1
     ⟨1, 1, "analysis", "oops", some "\x7b\x7d", "2024-01-01T10:00:00"⟩
     (List.mem_cons_self _ _) rfl (Or.inl rfl),
   List.mem_cons_self _ _,
   get_policy_contents_corrupt_aborts corruptMetaDB 1
     ⟨1, 1, "analysis", "\x7b\x7d", some "oops", "2024-01-01T10:00:00"⟩
     (List.mem_cons_self _ _) rfl
     (Or.inr ⟨"oops", rfl, by decide, rfl⟩)⟩
